import Mathlib

/-!
# mkr: the `run-checks` reporter and the host-id batching of `fetch`

Shallow embedding of
* `checker/checker.go`: `result`, `result.tapFormat`, `checkPluginChecker.check`, `runChecks`;
* `commands.go`: `split`, `doFetch`.

Go strings are embedded as Lean strings (sequences of Unicode code points); byte strings
that are not valid UTF-8 are outside the model. Go `int` is the 64-bit signed integer: it is
an `Int` here, wrapped explicitly at the one place where an overflow can change the outcome
(the capacity computed by `split`). Slice lengths are below `2 ^ 63`, so counters that only
count elements of a slice are not wrapped.

Library routines the code calls (`strings`, `strconv`/`fmt`, `encoding/json`,
`gopkg.in/yaml.v2`) are modelled in their own namespaces, from their documented behaviour.
-/

set_option autoImplicit false

/-! ## Go library models -/

namespace strconv

/-- Decimal digit character of `d` (for `d < 10`). -/
def digit (d : Nat) : Char := Char.ofNat (48 + d)

/-- Decimal digits of `n`, most significant first; `fuel` bounds the number of digits. -/
def digits : Nat → Nat → List Char
  | 0, _ => []
  | fuel + 1, n => if n < 10 then [digit n] else digits fuel (n / 10) ++ [digit (n % 10)]

/-- The text of `strconv.Itoa` / the verb `%d` on a non-negative integer. -/
def formatNat (n : Nat) : String := ⟨digits (n + 1) n⟩

/-- The text of `strconv.FormatInt(i, 10)` / the verb `%d`. -/
def Itoa : Int → String
  | Int.ofNat n => formatNat n
  | Int.negSucc n => "-" ++ formatNat (n + 1)

end strconv

namespace unicode

/-- Go `unicode.IsSpace`: the Latin-1 spaces `\t \n \v \f \r`, space, U+0085, U+00A0, and the
characters of category Z. -/
def IsSpace (c : Char) : Bool :=
  let n := c.toNat
  (9 ≤ n && n ≤ 13) || n == 0x20 || n == 0x85 || n == 0xA0 || n == 0x1680 ||
    (0x2000 ≤ n && n ≤ 0x200A) || n == 0x2028 || n == 0x2029 || n == 0x202F ||
    n == 0x205F || n == 0x3000

end unicode

namespace strings

/-- Go `strings.TrimSpace`: the string without its leading and trailing white space. -/
def TrimSpace (s : String) : String :=
  ⟨(s.data.dropWhile unicode.IsSpace).rdropWhile unicode.IsSpace⟩

/-- Characters of `strings.Replace(s, "\n", new, -1)`. -/
def replaceNewlines (new : List Char) : List Char → List Char
  | [] => []
  | c :: cs => (if c = '\n' then new else [c]) ++ replaceNewlines new cs

/-- Go `strings.Replace(s, "\n", new, -1)`: every line feed of `s` replaced by `new`. -/
def ReplaceNewline (s new : String) : String := ⟨replaceNewlines new.data s.data⟩

end strings

namespace json

/-- Hexadecimal digit (lower case) of `d < 16`. -/
def hexDigit (d : Nat) : Char := if d < 10 then Char.ofNat (48 + d) else Char.ofNat (87 + d)

/-- The escape `\u00XX` that `encoding/json` writes for a control or HTML character. -/
def uEscape (n : Nat) : List Char :=
  ['\\', 'u', hexDigit (n / 4096 % 16), hexDigit (n / 256 % 16), hexDigit (n / 16 % 16),
    hexDigit (n % 16)]

/-- One character inside a JSON string literal, as `encoding/json` writes it with HTML
escaping on (the default of `json.Marshal`). -/
def encodeChar (c : Char) : List Char :=
  if c = '"' then ['\\', '"']
  else if c = '\\' then ['\\', '\\']
  else if c = '\n' then ['\\', 'n']
  else if c = '\r' then ['\\', 'r']
  else if c = '\t' then ['\\', 't']
  else if c.toNat < 0x20 ∨ c = '<' ∨ c = '>' ∨ c = '&' ∨ c.toNat = 0x2028 ∨ c.toNat = 0x2029 then
    uEscape c.toNat
  else [c]

/-- A Go string as a JSON string literal. -/
def encodeString (s : String) : List Char :=
  '"' :: s.data.flatMap encodeChar ++ ['"']

/-- Go `json.Marshal` on a `[]string`: `null` for the nil slice, otherwise the JSON array of
the string literals, separated by commas without spaces. -/
def Marshal : Option (List String) → String
  | none => "null"
  | some args => ⟨'[' :: ((args.map encodeString).intersperse [',']).flatten ++ [']']⟩

end json

namespace yaml

/-- The part of `gopkg.in/yaml.v2` that writes a string scalar as the value of a key of a
top-level block mapping: given the column the emitter stands at after `key:` and the string,
the text it writes from there to the end of the entry, the line break that ends it included
(a leading space and the plain or quoted scalar, possibly folded over several lines, or a
block scalar header followed by its indented lines). -/
abbrev StringEmitter := Nat → String → String

/-- A scalar value of a mapping entry. -/
inductive Value where
  | str (s : String)
  | int (i : Int)
  deriving DecidableEq, Repr

/-- Text of one entry of a top-level block mapping, line break included. Keys are the fixed
identifiers of the struct tags, written plain; an integer is written plain in decimal. -/
def emitEntry (stringv : StringEmitter) : String × Value → String
  | (key, Value.str s) => key ++ ":" ++ stringv (key.length + 1) s
  | (key, Value.int i) => key ++ ": " ++ strconv.Itoa i ++ "\n"

/-- Text of a top-level block mapping with the given entries. -/
def emitMapping (stringv : StringEmitter) (entries : List (String × Value)) : String :=
  String.join (entries.map (emitEntry stringv))

end yaml

/-! ### A concrete string emitter

`yaml.stringv` below follows `encoder.stringv` (encode.go) and the scalar part of the emitter
(emitterc.go) of `gopkg.in/yaml.v2` for a value of a top-level block mapping, with Unicode
output on (as `yaml.Marshal` sets it). Of `resolve` it has the constant table, the integer
and float shapes and the base-60 shape; the timestamp layouts that later releases of the
library also resolve are not part of it. -/

namespace yaml

/-- Emitter setting `best_width`. -/
def best_width : Nat := 80

/-- Emitter setting `best_indent`, the indentation of a scalar below a top-level key. -/
def best_indent : Nat := 2

/-- The check `is_printable` of yamlprivateh.go, on a code point. -/
def is_printable (c : Char) : Bool :=
  let n := c.toNat
  n == 0x0A || (0x20 ≤ n && n ≤ 0x7E) || (0xA0 ≤ n && n ≤ 0xD7FF) ||
    (0xE000 ≤ n && n ≤ 0xFFFD && n != 0xFEFF)

/-- The check `is_space`: the space character. -/
def is_space (c : Char) : Bool := c == ' '

/-- The check `is_blank`: space or tab. -/
def is_blank (c : Char) : Bool := c == ' ' || c == '\t'

/-- The check `is_break`: CR, LF, NEL, LS, PS. -/
def is_break (c : Char) : Bool :=
  let n := c.toNat
  n == 0x0D || n == 0x0A || n == 0x85 || n == 0x2028 || n == 0x2029

/-- The check `is_blankz`: blank, break or NUL. -/
def is_blankz (c : Char) : Bool := is_blank c || is_break c || c.toNat == 0

/-- Is the first character of `cs` a space? -/
def nextIsSpace : List Char → Bool
  | [] => false
  | c :: _ => is_space c

/-- The strings of `resolveMap` (resolve.go): booleans, null, the special floats, merge. -/
def resolveMap : List String :=
  ["y", "Y", "yes", "Yes", "YES", "true", "True", "TRUE", "on", "On", "ON",
   "n", "N", "no", "No", "NO", "false", "False", "FALSE", "off", "Off", "OFF",
   "", "~", "null", "Null", "NULL", ".nan", ".NaN", ".NAN", ".inf", ".Inf", ".INF",
   "+.inf", "+.Inf", "+.INF", "-.inf", "-.Inf", "-.INF", "<<"]

/-- The entry of `resolveTable` for the first byte: `S` sign, `D` digit, `M` first letter of
a table constant, `.` dot, and NUL for every other byte. -/
def resolveHint (c : Char) : Char :=
  if c = '+' ∨ c = '-' then 'S'
  else if c.isDigit then 'D'
  else if c ∈ "yYnNtTfFoO~".data then 'M'
  else if c = '.' then '.'
  else Char.ofNat 0

/-- Value of a digit in the given base, if it is one. -/
def digitValue (base : Nat) (c : Char) : Option Nat :=
  let n := c.toNat
  let v := if 48 ≤ n ∧ n ≤ 57 then n - 48
    else if 97 ≤ n ∧ n ≤ 122 then n - 87
    else if 65 ≤ n ∧ n ≤ 90 then n - 55
    else base
  if v < base then some v else none

/-- Value of a digit string in the given base (`acc` is the value read so far). -/
def digitsValue (base : Nat) : List Char → Nat → Option Nat
  | [], acc => some acc
  | c :: cs, acc =>
    match digitValue base c with
    | some v => digitsValue base cs (acc * base + v)
    | none => none

/-- The magnitude `strconv.ParseUint(s, 0, 64)` reads, without the range check: prefix `0x`
for base 16, a leading `0` for base 8, decimal otherwise. -/
def parseBase0 : List Char → Option Nat
  | [] => none
  | '0' :: 'x' :: c :: cs => digitsValue 16 (c :: cs) 0
  | '0' :: 'X' :: c :: cs => digitsValue 16 (c :: cs) 0
  | '0' :: 'x' :: [] => none
  | '0' :: 'X' :: [] => none
  | '0' :: cs => digitsValue 8 cs 0
  | cs => digitsValue 10 cs 0

/-- Does `strconv.ParseInt(s, 0, 64)` or `strconv.ParseUint(s, 0, 64)` succeed? -/
def parsesAsInt : List Char → Bool
  | '-' :: cs => match parseBase0 cs with
    | some v => v ≤ 2 ^ 63
    | none => false
  | '+' :: cs => match parseBase0 cs with
    | some v => v < 2 ^ 63
    | none => false
  | cs => match parseBase0 cs with
    | some v => v < 2 ^ 64
    | none => false

/-- Does the yaml binary form `0b...` / `-0b...` parse as a 64-bit integer? -/
def parsesAsBinary : List Char → Bool
  | '0' :: 'b' :: cs => match cs, digitsValue 2 cs 0 with
    | _ :: _, some v => v < 2 ^ 64
    | _, _ => false
  | '-' :: '0' :: 'b' :: cs => match cs, digitsValue 2 cs 0 with
    | _ :: _, some v => v ≤ 2 ^ 63
    | _, _ => false
  | _ => false

/-- The rest of `cs` after its leading decimal digits, and whether there was a digit. -/
def skipDigits : List Char → Bool → List Char × Bool
  | [], seen => ([], seen)
  | c :: cs, seen => if c.isDigit then skipDigits cs true else (c :: cs, seen)

/-- Optional exponent `([eE][-+]?[0-9]+)?` followed by the end of the text. -/
def matchExponent : List Char → Bool
  | [] => true
  | e :: cs =>
    if e = 'e' ∨ e = 'E' then
      let ds := match cs with
        | '+' :: r => r
        | '-' :: r => r
        | r => r
      match skipDigits ds false with
      | ([], true) => true
      | _ => false
    else false

/-- The pattern `yamlStyleFloat`: `^[-+]?(\.[0-9]+|[0-9]+(\.[0-9]*)?)([eE][-+]?[0-9]+)?$`. -/
def yamlStyleFloat (cs : List Char) : Bool :=
  let body := match cs with
    | '+' :: r => r
    | '-' :: r => r
    | r => r
  match body with
  | '.' :: r => match skipDigits r false with
    | (rest, true) => matchExponent rest
    | _ => false
  | r => match skipDigits r false with
    | ('.' :: rest, true) => matchExponent (skipDigits rest false).1
    | (rest, true) => matchExponent rest
    | _ => false

/-- The tail `(?:\.[0-9_]*)?$` of the base-60 pattern. -/
def matchBase60Tail : List Char → Bool
  | [] => true
  | '.' :: cs => cs.all (fun c => c.isDigit || c == '_')
  | _ => false

/-- The groups `(?::[0-5]?[0-9])+` of the base-60 pattern, followed by its tail; `fuel`
bounds the number of groups. -/
def matchBase60Groups : Nat → List Char → Bool
  | 0, _ => false
  | fuel + 1, ':' :: a :: b :: cs =>
    if b.isDigit then
      a.isDigit && a.toNat ≤ 53 && (matchBase60Tail cs || matchBase60Groups fuel cs)
    else
      a.isDigit && (matchBase60Tail (b :: cs) || matchBase60Groups fuel (b :: cs))
  | _ + 1, ':' :: a :: [] => a.isDigit
  | _ + 1, _ => false

/-- The check `isBase60Float` (resolve.go): the pattern
`^[-+]?[0-9][0-9_]*(?::[0-5]?[0-9])+(?:\.[0-9_]*)?$`. -/
def isBase60Float (s : String) : Bool :=
  let body := match s.data with
    | '+' :: r => r
    | '-' :: r => r
    | r => r
  match body with
  | d :: r =>
    d.isDigit && matchBase60Groups s.length (r.dropWhile (fun c => c.isDigit || c == '_'))
  | [] => false

/-- Does `resolve("", s)` (resolve.go) answer the string tag? -/
def resolvesToStr (s : String) : Bool :=
  match s.data with
  | [] => false
  | c :: _ =>
    let hint := resolveHint c
    if hint = Char.ofNat 0 then true
    else if s ∈ resolveMap then false
    else if hint = 'M' then true
    else if hint = '.' then !(yamlStyleFloat s.data)
    else
      let plain := s.data.filter (fun c => c != '_')
      !(parsesAsInt plain || yamlStyleFloat plain || parsesAsBinary plain)

/-- The flags that `yaml_emitter_analyze_scalar` computes while it scans the value. -/
structure Analysis where
  block_indicators : Bool := false
  flow_indicators : Bool := false
  line_breaks : Bool := false
  special_characters : Bool := false
  leading_space : Bool := false
  leading_break : Bool := false
  trailing_space : Bool := false
  trailing_break : Bool := false
  break_space : Bool := false
  space_break : Bool := false
  preceded_by_whitespace : Bool := true
  previous_space : Bool := false
  previous_break : Bool := false

/-- One round of the scanning loop of `yaml_emitter_analyze_scalar`, on the character `c` at
the start (`first`) or further on, followed by `rest`. -/
def analyzeChar (first : Bool) (c : Char) (rest : List Char) (a : Analysis) : Analysis :=
  let followed_by_whitespace : Bool := match rest with
    | [] => true
    | d :: _ => is_blank d
  let last := rest.isEmpty
  let a :=
    if first then
      if c ∈ ['#', ',', '[', ']', '\x7b', '\x7d', '&', '*', '!', '|', '>', Char.ofNat 39, '"',
          '%', '@', Char.ofNat 96] then
        { a with flow_indicators := true, block_indicators := true }
      else if c = '?' ∨ c = ':' then
        { a with flow_indicators := true,
                 block_indicators := a.block_indicators || followed_by_whitespace }
      else if c = '-' ∧ followed_by_whitespace then
        { a with flow_indicators := true, block_indicators := true }
      else a
    else
      if c ∈ [',', '?', '[', ']', '\x7b', '\x7d'] then { a with flow_indicators := true }
      else if c = ':' then
        { a with flow_indicators := true,
                 block_indicators := a.block_indicators || followed_by_whitespace }
      else if c = '#' ∧ a.preceded_by_whitespace then
        { a with flow_indicators := true, block_indicators := true }
      else a
  let a := if is_printable c then a else { a with special_characters := true }
  let a :=
    if is_space c then
      { a with leading_space := a.leading_space || first,
               trailing_space := a.trailing_space || last,
               break_space := a.break_space || a.previous_break,
               previous_space := true, previous_break := false }
    else if is_break c then
      { a with line_breaks := true,
               leading_break := a.leading_break || first,
               trailing_break := a.trailing_break || last,
               space_break := a.space_break || a.previous_space,
               previous_space := false, previous_break := true }
    else { a with previous_space := false, previous_break := false }
  { a with preceded_by_whitespace := is_blankz c }

/-- The scanning loop of `yaml_emitter_analyze_scalar`. -/
def analyzeLoop : Bool → List Char → Analysis → Analysis
  | _, [], a => a
  | first, c :: cs, a => analyzeLoop false cs (analyzeChar first c cs a)

/-- The permissions `yaml_emitter_analyze_scalar` leaves in `emitter.scalar_data`. -/
structure ScalarData where
  multiline : Bool
  flow_plain_allowed : Bool
  block_plain_allowed : Bool
  single_quoted_allowed : Bool
  block_allowed : Bool
  deriving DecidableEq, Repr

/-- The function `yaml_emitter_analyze_scalar` (emitterc.go). -/
def analyze_scalar (value : List Char) : ScalarData :=
  match value with
  | [] =>
    { multiline := false, flow_plain_allowed := false, block_plain_allowed := true,
      single_quoted_allowed := true, block_allowed := false }
  | _ =>
    let start : Analysis :=
      match value with
      | '-' :: '-' :: '-' :: _ => { block_indicators := true, flow_indicators := true }
      | '.' :: '.' :: '.' :: _ => { block_indicators := true, flow_indicators := true }
      | _ => {}
    let a := analyzeLoop true value start
    let edge := a.leading_space || a.leading_break || a.trailing_space || a.trailing_break
    let bad := a.space_break || a.special_characters
    { multiline := a.line_breaks
      flow_plain_allowed :=
        !(edge || a.break_space || bad || a.line_breaks || a.flow_indicators)
      block_plain_allowed :=
        !(edge || a.break_space || bad || a.line_breaks || a.block_indicators)
      single_quoted_allowed := !(a.break_space || bad)
      block_allowed := !(a.trailing_space || bad) }

/-- Scalar styles of the emitter. -/
inductive Style where
  | plain
  | singleQuoted
  | doubleQuoted
  | literal
  deriving DecidableEq, Repr

/-- The style `encoder.stringv` asks for. -/
def requestedStyle (s : String) : Style :=
  let canUsePlain := resolvesToStr s && !isBase60Float s
  if '\n' ∈ s.data then Style.literal
  else if canUsePlain then Style.plain
  else Style.doubleQuoted

/-- The function `yaml_emitter_select_scalar_style` for an untagged value of a block mapping
(no flow context, not a simple key). -/
def select_scalar_style (requested : Style) (d : ScalarData) : Style :=
  let style := requested
  let style :=
    if style = Style.plain ∧ !d.block_plain_allowed then Style.singleQuoted else style
  let style :=
    if style = Style.singleQuoted ∧ !d.single_quoted_allowed then Style.doubleQuoted else style
  if style = Style.literal ∧ !d.block_allowed then Style.doubleQuoted else style

/-- The text `yaml_emitter_write_indent` writes inside a folded scalar: a line break and the
indentation of the scalar. -/
def foldBreak : List Char := '\n' :: List.replicate best_indent ' '

/-- The loop of `yaml_emitter_write_plain_scalar` on a value without line breaks; `spaces`
is the flag of the same name and `column` the emitter column. -/
def writePlain : List Char → Bool → Nat → List Char
  | [], _, _ => []
  | c :: cs, spaces, column =>
    if is_space c then
      if !spaces && decide (column > best_width) && !nextIsSpace cs then
        foldBreak ++ writePlain cs true best_indent
      else c :: writePlain cs true (column + 1)
    else c :: writePlain cs false (column + 1)

/-- The loop of `yaml_emitter_write_single_quoted_scalar`; `first` says that the character is
the first of the value, `spaces` and `breaks` are the flags of the same names. -/
def writeSingleQuoted : List Char → Bool → Bool → Bool → Nat → List Char
  | [], _, _, _, _ => []
  | c :: cs, first, spaces, breaks, column =>
    if is_space c then
      if !spaces && decide (column > best_width) && !first && !cs.isEmpty && !nextIsSpace cs then
        foldBreak ++ writeSingleQuoted cs false true breaks best_indent
      else c :: writeSingleQuoted cs false true breaks (column + 1)
    else if is_break c then
      (if !breaks && c == '\n' then ['\n'] else []) ++ c ::
        writeSingleQuoted cs false spaces true 0
    else
      (if breaks then List.replicate (best_indent - column) ' ' else []) ++
      (if c = Char.ofNat 39 then [c, c] else [c]) ++
        writeSingleQuoted cs false false false
          ((if breaks then max column best_indent else column) +
            (if c = Char.ofNat 39 then 2 else 1))

/-- Hexadecimal digit (upper case) of `d < 16`. -/
def hexDigit (d : Nat) : Char := if d < 10 then Char.ofNat (48 + d) else Char.ofNat (55 + d)

/-- The `k` low hexadecimal digits of `n`, most significant first. -/
def hexDigits : Nat → Nat → List Char
  | 0, _ => []
  | k + 1, n => hexDigits k (n / 16) ++ [hexDigit (n % 16)]

/-- The escape sequence of the double-quoted style for a character that is not written as
itself. -/
def escape (c : Char) : List Char :=
  let n := c.toNat
  '\\' ::
    (if n = 0x00 then ['0'] else if n = 0x07 then ['a'] else if n = 0x08 then ['b']
     else if n = 0x09 then ['t'] else if n = 0x0A then ['n'] else if n = 0x0B then ['v']
     else if n = 0x0C then ['f'] else if n = 0x0D then ['r'] else if n = 0x1B then ['e']
     else if n = 0x22 then ['"'] else if n = 0x5C then ['\\'] else if n = 0x85 then ['N']
     else if n = 0xA0 then ['_'] else if n = 0x2028 then ['L'] else if n = 0x2029 then ['P']
     else if n ≤ 0xFF then 'x' :: hexDigits 2 n
     else if n ≤ 0xFFFF then 'u' :: hexDigits 4 n
     else 'U' :: hexDigits 8 n)

/-- The loop of `yaml_emitter_write_double_quoted_scalar`. -/
def writeDoubleQuoted : List Char → Bool → Bool → Nat → List Char
  | [], _, _, _ => []
  | c :: cs, first, spaces, column =>
    if !is_printable c || c.toNat == 0xFEFF || is_break c || c == '"' || c == '\\' then
      escape c ++ writeDoubleQuoted cs false false (column + (escape c).length)
    else if is_space c then
      if !spaces && decide (column > best_width) && !first && !cs.isEmpty then
        foldBreak ++ (if nextIsSpace cs then ['\\'] else []) ++
          writeDoubleQuoted cs false true (best_indent + (if nextIsSpace cs then 1 else 0))
      else c :: writeDoubleQuoted cs false true (column + 1)
    else c :: writeDoubleQuoted cs false false (column + 1)

/-- The hints `yaml_emitter_write_block_scalar_hints` writes after `|`: the indentation
indicator when the value starts with a space or a break, then the chomping indicator. -/
def blockScalarHints (value : List Char) : List Char :=
  let indentHint := match value with
    | c :: _ => if is_space c || is_break c then [Char.ofNat (48 + best_indent)] else []
    | [] => []
  let chompHint := match value.reverse with
    | [] => ['-']
    | c :: before =>
      if !is_break c then ['-']
      else match before with
        | [] => ['+']
        | b :: _ => if is_break b then ['+'] else []
  indentHint ++ chompHint

/-- The loop of `yaml_emitter_write_literal_scalar`; `breaks` is the flag of the same name. -/
def writeLiteral : List Char → Bool → List Char
  | [], _ => []
  | c :: cs, breaks =>
    if is_break c then c :: writeLiteral cs true
    else (if breaks then List.replicate best_indent ' ' else []) ++ c :: writeLiteral cs false

/-- The text written for a string value from the column after `key:` to the end of the entry:
`encoder.stringv`, `yaml_emitter_emit_scalar` and the line break that
`yaml_emitter_write_indent` puts before the next key or at the end of the document when the
emitter is not at the start of a line. -/
def stringv : StringEmitter := fun column s =>
  let value := s.data
  let text :=
    match select_scalar_style (requestedStyle s) (analyze_scalar value) with
    | Style.plain => ' ' :: writePlain value false (column + 1)
    | Style.singleQuoted =>
      ' ' :: Char.ofNat 39 :: writeSingleQuoted value true false false (column + 2) ++
        [Char.ofNat 39]
    | Style.doubleQuoted =>
      ' ' :: '"' :: writeDoubleQuoted value true false (column + 2) ++ ['"']
    | Style.literal => ' ' :: '|' :: blockScalarHints value ++ '\n' :: writeLiteral value true
  match text.getLast? with
  | some c => if is_break c then ⟨text⟩ else ⟨text ++ ['\n']⟩
  | none => ⟨text⟩

end yaml

/-! ## `checker/checker.go` -/

namespace Mkr

/-- Go struct `result`, with its fields in declaration order. -/
structure result where
  Name : String
  Memo : String
  Cmd : String
  Stdout : String
  Stderr : String
  ExitCode : Int
  ErrMsg : String
  deriving DecidableEq, Repr

/-- The mapping `yaml.Marshal` builds from the struct tags of `result`: fields in declaration
order under their tag names, `Name` left out (tag `-`), a field tagged `omitempty` left out
when it is the zero value of its type (`""`, `0`). -/
def result.yamlFields (re : result) : List (String × yaml.Value) :=
  (if re.Memo = "" then [] else [("memo", yaml.Value.str re.Memo)]) ++
  [("command", yaml.Value.str re.Cmd)] ++
  (if re.Stdout = "" then [] else [("stdout", yaml.Value.str re.Stdout)]) ++
  (if re.Stderr = "" then [] else [("stderr", yaml.Value.str re.Stderr)]) ++
  (if re.ExitCode = 0 then [] else [("exitCode", yaml.Value.int re.ExitCode)]) ++
  (if re.ErrMsg = "" then [] else [("error", yaml.Value.str re.ErrMsg)])

/-- The bytes of `yaml.Marshal(re)`. -/
def result.yamlMarshal (stringv : yaml.StringEmitter) (re : result) : String :=
  yaml.emitMapping stringv re.yamlFields

/-- Go `(re *result) tapFormat(num int) string`. -/
def result.tapFormat (stringv : yaml.StringEmitter) (re : result) (num : Int) : String :=
  let okOrNot := if re.ExitCode ≠ 0 ∨ re.ErrMsg ≠ "" then "not ok" else "ok"
  let b := re.yamlMarshal stringv
  let yamlStr := "  " ++ strings.ReplaceNewline (strings.TrimSpace b) "\n  "
  okOrNot ++ " " ++ strconv.Itoa num ++ " - " ++ re.Name ++ "\n  ---\n" ++ yamlStr ++ "\n  ..."

/-- The fields of `config.Command` (package `mackerel-agent/config`) that `check` reads: the
literal command line and the argument vector (`none` is the nil slice). -/
structure Command where
  Cmd : String
  Args : Option (List String)
  deriving DecidableEq, Repr

/-- The fields of `config.CheckPlugin` that `check` reads. -/
structure CheckPlugin where
  Command : Command
  Memo : String
  deriving DecidableEq, Repr

/-- What `p.Command.Run()` returns: `stdout, stderr, exitCode, err`; `err` is the text of
`err.Error()`, or `none` for a nil error. -/
structure RunOutcome where
  stdout : String
  stderr : String
  exitCode : Int
  err : Option String
  deriving DecidableEq, Repr

/-- Go struct `checkPluginChecker`. -/
structure checkPluginChecker where
  name : String
  cp : CheckPlugin
  deriving DecidableEq, Repr

/-- Go `(cpc *checkPluginChecker) check() *result`; `run` is what the call
`p.Command.Run()` returned. -/
def checkPluginChecker.check (cpc : checkPluginChecker) (run : RunOutcome) : result :=
  let p := cpc.cp
  let cmdStr := if p.Command.Cmd = "" then json.Marshal p.Command.Args else p.Command.Cmd
  let errMsg := match run.err with
    | some e => e
    | none => ""
  { Name := cpc.name
    Memo := p.Memo
    Cmd := cmdStr
    ExitCode := run.exitCode
    Stdout := strings.TrimSpace run.stdout
    Stderr := strings.TrimSpace run.stderr
    ErrMsg := errMsg }

/-- Go interface `checker`: a value with a method `check() *result`. The result its call
yields in the run under consideration is its only observable; the pointer is not nil (`check`
of `checkPluginChecker` returns the address of a fresh struct). -/
structure checker where
  check : result
  deriving DecidableEq, Repr

/-- Go interface `io.Writer` over an explicit state: `Write` returns the new state of the
sink and the error of the call (`none` is nil). -/
structure Writer (σ : Type) where
  Write : σ → String → σ × Option String

/-- Go `fmt.Fprintln(w, s)`: one `Write` of `s` followed by a line feed. -/
def Fprintln {σ : Type} (W : Writer σ) (w : σ) (s : String) : σ × Option String :=
  W.Write w (s ++ "\n")

/-- Go `fmt.Fprintf(w, "1..%d\n", total)`. -/
def FprintfPlan {σ : Type} (W : Writer σ) (w : σ) (total : Int) : σ × Option String :=
  W.Write w ("1.." ++ strconv.Itoa total ++ "\n")

/-- The loop `for re := range ch` of `runChecks`: `ch` lists the results in the order the
channel delivers them. The values returned by `fmt.Fprintln` are dropped, as in the source. -/
def runChecks.loop {σ : Type} (stringv : yaml.StringEmitter) (W : Writer σ) :
    List result → Int → σ → σ
  | [], _, w => w
  | re :: ch, testNum, w =>
    runChecks.loop stringv W ch (testNum + 1) (Fprintln W w (re.tapFormat stringv testNum)).1

/-- Go `runChecks(checkers []checker, w io.Writer) error`. Every checker runs in a goroutine
of its own that sends its one result on the unbuffered channel `ch`, which is closed once all
have sent; the order `ch` in which the results are received is therefore some permutation
of the checkers' results, chosen by the scheduler, and is an argument here. The value is the
final state of the sink and the returned error (`none` is nil). -/
def runChecks {σ : Type} (stringv : yaml.StringEmitter) (W : Writer σ)
    (checkers : List checker) (ch : List result) (w : σ) : σ × Option String :=
  let total := checkers.length
  let w := (Fprintln W w "TAP version 13").1
  let w := (FprintfPlan W w total).1
  let w := runChecks.loop stringv W ch 1 w
  (w, none)

/-- Go `bytes.Buffer` as a writer: `Write` appends and never fails. -/
def bytesBuffer : Writer String := ⟨fun buf p => (buf ++ p, none)⟩

/-- A sink that keeps the argument of every `Write` call, in order, and never fails. -/
def recorder : Writer (List String) := ⟨fun calls p => (calls ++ [p], none)⟩

/-- A sink whose first `Write` fails (and stores nothing) and whose later writes append. The
state is the number of calls so far and the stored text. -/
def failFirst : Writer (Nat × String) :=
  ⟨fun st p => if st.1 = 0 then ((1, st.2), some "write failed") else ((st.1 + 1, st.2 ++ p), none)⟩

/-! ## `commands.go` -/

/-- Go `int` arithmetic wraps modulo `2 ^ 64`. -/
def wrapInt64 (x : Int) : Int := (x + 2 ^ 63) % 2 ^ 64 - 2 ^ 63

/-- The loop of `split`: `i` is the index of the next identifier, `xs` the chunks so far.
`none` is the run-time panic of `xs[len(xs)-1]` on an empty `xs`. -/
def split.loop (count : Int) : List String → Nat → List (List String) → Option (List (List String))
  | [], _, xs => some xs
  | name :: ids, i, xs =>
    let xs := if Int.tmod i count = 0 then xs ++ [[]] else xs
    match xs.getLast? with
    | none => none
    | some last => split.loop count ids (i + 1) (xs.dropLast ++ [last ++ [name]])

/-- Go `split(ids []string, count int) [][]string`; `none` is a run-time panic: the integer
division by zero, or `make` with a negative capacity. -/
def split (ids : List String) (count : Int) : Option (List (List String)) :=
  if count = 0 then none
  else if Int.tdiv (wrapInt64 (wrapInt64 (ids.length + count) - 1)) count < 0 then none
  else split.loop count ids 0 []

/-- The host-id arguments of the calls `FetchLatestMetricValues(hostIds, optMetricNames)` that
`doFetch` makes, in order, in a run in which every call succeeds (`logger.DieIf` ends the
process at a failing one). `none`: `doFetch` shows the help and exits, or `split` panics. -/
def doFetch (argHostIDs optMetricNames : List String) : Option (List (List String)) :=
  if argHostIDs.length < 1 ∨ optMetricNames.length < 1 then none
  else split argHostIDs 100

/-! ## Notions used to state the properties -/

/-- The lines of a text: the pieces between its line feeds. -/
def splitLines : List Char → List (List Char)
  | [] => [[]]
  | c :: cs =>
    if c = '\n' then [] :: splitLines cs
    else match splitLines cs with
      | l :: ls => (c :: l) :: ls
      | [] => [[c]]

/-- The lines of a string. -/
def Lines (s : String) : List String := (splitLines s.data).map String.mk

/-- The first line of a string: its text before the first line feed. -/
def firstLine (s : String) : String := ⟨s.data.takeWhile (fun c => c != '\n')⟩

/-- `t` is `s` without its leading and trailing white space: `s` is `t` between two runs of
white space, and `t` neither starts nor ends with white space. -/
def IsTrimOf (t s : String) : Prop :=
  (∃ pre post : List Char, s.data = pre ++ t.data ++ post ∧
    (∀ c ∈ pre, unicode.IsSpace c = true) ∧ (∀ c ∈ post, unicode.IsSpace c = true)) ∧
  (∀ c, t.data.head? = some c → unicode.IsSpace c = false) ∧
  (∀ c, t.data.getLast? = some c → unicode.IsSpace c = false)

/-- The keys of the mapping that `yaml.Marshal` writes for `re`, in the order written. -/
def result.yamlKeys (re : result) : List String := re.yamlFields.map Prod.fst

/-- The result counts as failing in the report. -/
abbrev result.failing (re : result) : Prop := re.ExitCode ≠ 0 ∨ re.ErrMsg ≠ ""

/-! ## Values used in the worked instances -/

/-- The checker of the scenario: name `hoge`, no literal command string, the argument vector
`["perl", "-E", "say 'Hello'"]`, no memo. -/
def hoge : checkPluginChecker :=
  { name := "hoge", cp := { Command := { Cmd := "", Args := some ["perl", "-E", "say 'Hello'"] },
                            Memo := "" } }

/-- The run of the scenario: stdout `Hello`, empty stderr, exit code 0, no error. -/
def hogeRun : RunOutcome := { stdout := "Hello", stderr := "", exitCode := 0, err := none }

/-- A passing result. -/
def passing : result :=
  { Name := "a", Memo := "", Cmd := "true", Stdout := "", Stderr := "", ExitCode := 0,
    ErrMsg := "" }

/-- A failing result (exit code 1). -/
def failed : result :=
  { Name := "b", Memo := "", Cmd := "false", Stdout := "", Stderr := "", ExitCode := 1,
    ErrMsg := "" }

/-- A result whose stdout has two lines. -/
def twoLines : result :=
  { Name := "hoge", Memo := "", Cmd := "true", Stdout := "a\nb", Stderr := "", ExitCode := 0,
    ErrMsg := "" }

/-- A result whose name holds a line feed. -/
def brokenName : result :=
  { Name := "a\nb", Memo := "", Cmd := "true", Stdout := "", Stderr := "", ExitCode := 0,
    ErrMsg := "" }

/-- A checker with no literal command string and a nil argument vector. -/
def noCommand : checkPluginChecker :=
  { name := "hoge", cp := { Command := { Cmd := "", Args := none }, Memo := "" } }

/-- A run with empty streams, exit code 0 and no error. -/
def silentRun : RunOutcome := { stdout := "", stderr := "", exitCode := 0, err := none }

end Mkr

/-! ## Properties -/

namespace Mkr

/-! ### `split` -/

theorem wrapInt64_of_range {x : Int} (h₁ : -2 ^ 63 ≤ x) (h₂ : x < 2 ^ 63) : wrapInt64 x = x := by
  unfold wrapInt64; omega

/-- One run of the loop of `split` from a state whose chunks are all full except the last,
which is not empty: the state at the end has the same shape and holds the old chunks'
elements followed by `ids`. -/
theorem split_loop_spec (c : Nat) (hc : 0 < c) :
    ∀ (ids : List String) (full : List (List String)) (last : List String),
      (∀ ch ∈ full, ch.length = c) → 0 < last.length → last.length ≤ c →
      ∃ full' last', split.loop c ids (full.length * c + last.length) (full ++ [last])
          = some (full' ++ [last']) ∧
        (∀ ch ∈ full', ch.length = c) ∧ 0 < last'.length ∧ last'.length ≤ c ∧
        (full' ++ [last']).flatten = (full ++ [last]).flatten ++ ids ∧
        full'.length * c + last'.length = full.length * c + last.length + ids.length := by
  intro ids
  induction ids with
  | nil =>
    intro full last hfull hpos hle
    exact ⟨full, last, rfl, hfull, hpos, hle, by simp, by simp⟩
  | cons name ids ih =>
    intro full last hfull hpos hle
    have hmod : Int.tmod ((full.length * c + last.length : Nat) : Int) (c : Int)
        = ((last.length % c : Nat) : Int) := by
      rw [← Int.ofNat_tmod, Nat.mul_comm, Nat.mul_add_mod]
    rcases Nat.lt_or_ge last.length c with hlt | hge
    · -- the last chunk has room
      have hne : ¬ Int.tmod ((full.length * c + last.length : Nat) : Int) (c : Int) = 0 := by
        rw [hmod, Nat.mod_eq_of_lt hlt]; omega
      obtain ⟨full', last', h, h1, h2, h3, h4, h5⟩ :=
        ih full (last ++ [name]) hfull (by simp) (by simp; omega)
      refine ⟨full', last', ?_, h1, h2, h3, ?_, ?_⟩
      · simp only [split.loop, hne, if_false, List.getLast?_concat, List.dropLast_concat]
        have e : full.length * c + last.length + 1
            = full.length * c + (last ++ [name]).length := by simp; omega
        rw [e]; exact h
      · rw [h4]; simp
      · rw [h5]; simp; omega
    · -- the last chunk is full: a new chunk is opened
      have hlen : last.length = c := Nat.le_antisymm hle hge
      have he : Int.tmod ((full.length * c + last.length : Nat) : Int) (c : Int) = 0 := by
        rw [hmod, hlen, Nat.mod_self]; rfl
      have hfull' : ∀ ch ∈ full ++ [last], ch.length = c := by
        intro ch hch
        rcases List.mem_append.mp hch with h | h
        · exact hfull ch h
        · rw [List.mem_singleton.mp h]; exact hlen
      obtain ⟨full', last', h, h1, h2, h3, h4, h5⟩ :=
        ih (full ++ [last]) [name] hfull' (by simp) (by simp; omega)
      refine ⟨full', last', ?_, h1, h2, h3, ?_, ?_⟩
      · simp only [split.loop, he, if_true, List.getLast?_concat, List.dropLast_concat,
          List.nil_append]
        have e : full.length * c + last.length + 1
            = (full ++ [last]).length * c + [name].length := by
          simp [Nat.add_mul]; omega
        rw [e]; exact h
      · rw [h4]; simp
      · rw [h5]; simp [Nat.add_mul]; omega

/-- What `split` promises for the chunks `xs` of `ids` with chunk size `count`. -/
theorem split_of_pos (c : Nat) (hc : 0 < c) (ids : List String)
    (hfit : (ids.length : Int) + c - 1 < 2 ^ 63) :
    ∃ xs, split ids c = some xs ∧ xs.flatten = ids ∧
      (∀ ch ∈ xs, ch ≠ [] ∧ ch.length ≤ c) ∧ (∀ ch ∈ xs.dropLast, ch.length = c) ∧
      (xs.length : Int) = ((ids.length : Int) + c - 1) / c := by
  have hc0 : ¬ ((c : Int) = 0) := by omega
  have hcap : ¬ Int.tdiv (wrapInt64 (wrapInt64 ((ids.length : Int) + c) - 1)) c < 0 := by
    have hw : wrapInt64 (wrapInt64 ((ids.length : Int) + c) - 1) = (ids.length : Int) + c - 1 := by
      unfold wrapInt64; omega
    rw [hw]
    exact Int.not_lt.mpr (Int.tdiv_nonneg (by omega) (by omega))
  cases ids with
  | nil =>
    refine ⟨[], ?_, rfl, by simp, by simp, ?_⟩
    · simp only [split, hc0, if_false, hcap, split.loop]
    · simp only [List.length_nil, Nat.cast_zero, zero_add]
      rw [Int.ediv_eq_zero_of_lt (by omega) (by omega)]
  | cons name rest =>
    obtain ⟨full, last, h, h1, h2, h3, h4, h5⟩ :=
      split_loop_spec c hc rest [] [name] (by simp) (by simp) (by simpa using hc)
    have hstart : split (name :: rest) c = some (full ++ [last]) := by
      simp only [split, hc0, if_false, hcap]
      have h0 : Int.tmod ((0 : Nat) : Int) (c : Int) = 0 := by simp
      simp only [split.loop, h0, if_true, List.nil_append, List.getLast?_singleton,
        List.dropLast_single]
      simpa using h
    refine ⟨full ++ [last], hstart, by simpa using h4, ?_, ?_, ?_⟩
    · intro ch hch
      rcases List.mem_append.mp hch with hm | hm
      · have := h1 ch hm
        exact ⟨by intro e; rw [e] at this; simp at this; omega, by omega⟩
      · rw [List.mem_singleton.mp hm]
        exact ⟨by intro e; rw [e] at h2; simp at h2, h3⟩
    · rw [List.dropLast_concat]; exact h1
    · have h5' : (full.length : Int) * c + last.length = 1 + rest.length := by
        have := congrArg (fun n : Nat => (n : Int)) h5
        simpa using this
      have e : ((name :: rest).length : Int) + c - 1
          = ((last.length : Int) - 1) + ((full.length : Int) + 1) * c := by
        simp only [List.length_cons, Nat.cast_add, Nat.cast_one]
        linarith
      rw [e, Int.add_mul_ediv_right _ _ hc0, Int.ediv_eq_zero_of_lt (by omega) (by omega)]
      simp

/-- C10, as amended: for every count > 0 for which `len(ids) + count - 1` is still an `int`,
`split(ids, count)` returns chunks whose concatenation in order is `ids`; every chunk is
non-empty and has at most `count` elements, every chunk but the last has exactly `count`,
and there are `ceil(len(ids) / count)` chunks (none for an empty list); with `count = 100`
these chunks are the host-id batches `doFetch` requests, so every host id is sent once and no
request carries more than 100. -/
theorem split_chunks (ids : List String) (count : Int) (hpos : 0 < count)
    (hfit : (ids.length : Int) + count - 1 < 2 ^ 63) :
    ∃ xs, split ids count = some xs ∧ xs.flatten = ids ∧
      (∀ ch ∈ xs, ch ≠ [] ∧ (ch.length : Int) ≤ count) ∧
      (∀ ch ∈ xs.dropLast, (ch.length : Int) = count) ∧
      (xs.length : Int) = ((ids.length : Int) + count - 1) / count ∧
      (ids = [] → xs = []) ∧
      (count = 100 → ∀ names : List String, ids ≠ [] → names ≠ [] →
        doFetch ids names = some xs) := by
  obtain ⟨c, rfl⟩ := Int.eq_ofNat_of_zero_le (Int.le_of_lt hpos)
  have hc : 0 < c := by exact_mod_cast hpos
  obtain ⟨xs, h, hflat, hch, hdrop, hlen⟩ := split_of_pos c hc ids hfit
  refine ⟨xs, h, hflat, ?_, ?_, hlen, ?_, ?_⟩
  · intro ch hm
    exact ⟨(hch ch hm).1, by exact_mod_cast (hch ch hm).2⟩
  · intro ch hm
    exact_mod_cast hdrop ch hm
  · intro hnil
    subst hnil
    cases xs with
    | nil => rfl
    | cons ch rest =>
      have hne := (hch ch (List.mem_cons_self _ _)).1
      have : ch = [] := by
        have hl := congrArg List.length hflat
        simp only [List.flatten_cons, List.length_append, List.length_nil] at hl
        exact List.length_eq_zero.mp (Nat.eq_zero_of_add_eq_zero_right hl)
      exact absurd this hne
  · intro h100 names hids hnames
    have hl1 : ¬ (ids.length < 1 ∨ names.length < 1) := by
      have := List.length_pos.mpr hids
      have := List.length_pos.mpr hnames
      omega
    simp only [doFetch, hl1, if_false]
    rw [← h100]; exact h

/-- C10, evaluated: three ids in chunks of two. -/
theorem split_chunks_witness :
    (0 : Int) < 2 ∧ ((["a", "b", "c"].length : Int) + 2 - 1 < 2 ^ 63) ∧
    ∃ xs, split ["a", "b", "c"] 2 = some xs ∧ xs.flatten = ["a", "b", "c"] ∧
      (∀ ch ∈ xs, ch ≠ [] ∧ (ch.length : Int) ≤ 2) ∧
      (∀ ch ∈ xs.dropLast, (ch.length : Int) = 2) ∧
      (xs.length : Int) = ((["a", "b", "c"].length : Int) + 2 - 1) / 2 ∧
      (["a", "b", "c"] = [] → xs = []) ∧
      ((2 : Int) = 100 → ∀ names : List String, ["a", "b", "c"] ≠ [] → names ≠ [] →
        doFetch ["a", "b", "c"] names = some xs) :=
  ⟨by decide, by decide, split_chunks ["a", "b", "c"] 2 (by decide) (by decide)⟩

/-- C10, as stated, fails: with the largest `int` as the count and two ids the capacity
`(len(ids)+count-1)/count` overflows to a negative number and `make` panics. -/
theorem split_overflow_counterexample :
    (0 : Int) < 9223372036854775807 ∧ split ["a", "b"] 9223372036854775807 = none := by
  decide

/-! ### Text lemmas -/

theorem digit_ne_newline : ∀ d, d < 10 → strconv.digit d ≠ '\n' := by decide

theorem digits_no_newline (fuel n : Nat) : '\n' ∉ strconv.digits fuel n := by
  induction fuel generalizing n with
  | zero => simp [strconv.digits]
  | succ fuel ih =>
    unfold strconv.digits
    split
    · rename_i h
      simpa using (digit_ne_newline n h).symm
    · simp only [List.mem_append, List.mem_singleton, not_or]
      exact ⟨ih _, (digit_ne_newline _ (Nat.mod_lt _ (by decide))).symm⟩

theorem Itoa_no_newline (i : Int) : '\n' ∉ (strconv.Itoa i).data := by
  cases i with
  | ofNat n => exact digits_no_newline _ _
  | negSucc n =>
    simp only [strconv.Itoa, String.data_append, List.mem_append, not_or]
    exact ⟨by decide, digits_no_newline _ _⟩

theorem takeWhile_until_newline (a r : List Char) (h : '\n' ∉ a) :
    (a ++ '\n' :: r).takeWhile (fun c => c != '\n') = a := by
  induction a with
  | nil => simp
  | cons c a ih =>
    have hc : c ≠ '\n' := fun e => h (by simp [e])
    have ha : '\n' ∉ a := fun e => h (by simp [e])
    simp [List.takeWhile_cons, hc, ih ha]

theorem splitLines_ne_nil (a : List Char) : splitLines a ≠ [] := by
  cases a with
  | nil => simp [splitLines]
  | cons c a =>
    unfold splitLines
    split
    · simp
    · split <;> simp

theorem splitLines_no_newline (a : List Char) (h : '\n' ∉ a) : splitLines a = [a] := by
  induction a with
  | nil => rfl
  | cons c a ih =>
    have hc : c ≠ '\n' := fun e => h (by simp [e])
    have ha : '\n' ∉ a := fun e => h (by simp [e])
    simp [splitLines, hc, ih ha]

theorem splitLines_append_newline (a b : List Char) :
    splitLines (a ++ '\n' :: b) = splitLines a ++ splitLines b := by
  induction a with
  | nil => simp [splitLines]
  | cons c a ih =>
    by_cases hc : c = '\n'
    · simp [splitLines, hc, ih]
    · obtain ⟨l, ls, hl⟩ := List.exists_cons_of_ne_nil (splitLines_ne_nil a)
      simp [splitLines, hc, ih, hl]

/-- Lines of an indented text: the first line of `t` follows `p`, every later line follows
the margin `m`. -/
theorem splitLines_replaceNewlines (m : List Char) (hm : '\n' ∉ m) (t p : List Char)
    (hp : '\n' ∉ p) :
    splitLines (p ++ strings.replaceNewlines ('\n' :: m) t) =
      (p ++ (splitLines t).headD []) :: (splitLines t).tail.map (fun l => m ++ l) := by
  induction t generalizing p with
  | nil => simp [strings.replaceNewlines, splitLines, splitLines_no_newline p hp]
  | cons c t ih =>
    obtain ⟨l, ls, hl⟩ := List.exists_cons_of_ne_nil (splitLines_ne_nil t)
    by_cases hc : c = '\n'
    · have := ih m hm
      simp only [hl, List.headD_cons, List.tail_cons] at this
      simp [strings.replaceNewlines, splitLines, hc, splitLines_append_newline,
        splitLines_no_newline p hp, this, hl]
    · have hp' : '\n' ∉ p ++ [c] := by
        simp only [List.mem_append, List.mem_singleton, not_or]
        exact ⟨hp, fun e => hc e.symm⟩
      have := ih (p ++ [c]) hp'
      simp only [hl, List.headD_cons, List.tail_cons, List.append_assoc,
        List.singleton_append] at this
      simp [strings.replaceNewlines, splitLines, hc, this, hl]

theorem splitLines_margin (m t : List Char) (hm : '\n' ∉ m) :
    splitLines (m ++ strings.replaceNewlines ('\n' :: m) t) =
      (splitLines t).map (fun l => m ++ l) := by
  obtain ⟨l, ls, hl⟩ := List.exists_cons_of_ne_nil (splitLines_ne_nil t)
  rw [splitLines_replaceNewlines m hm t m hm, hl]
  simp

/-- The characters of the status line have no line feed when the name has none. -/
theorem statusLine_no_newline (marker : String) (hmk : '\n' ∉ marker.data) (num : Int)
    (name : String) (h : '\n' ∉ name.data) :
    '\n' ∉ (marker ++ " " ++ strconv.Itoa num ++ " - " ++ name).data := by
  simp only [String.data_append, List.mem_append, not_or]
  exact ⟨⟨⟨⟨hmk, by decide⟩, Itoa_no_newline num⟩, by decide⟩, h⟩

/-- The text of `tapFormat` as a list of characters: the status line, the opening marker,
the indented block, the closing marker. -/
theorem tapFormat_data (stringv : yaml.StringEmitter) (re : result) (num : Int) :
    (re.tapFormat stringv num).data =
      ((if re.failing then "not ok" else "ok") ++ " " ++ strconv.Itoa num ++ " - "
          ++ re.Name).data ++
        '\n' :: ("  ---".data ++ '\n' :: (("  ".data ++ strings.replaceNewlines ('\n' :: "  ".data)
            (strings.TrimSpace (re.yamlMarshal stringv)).data) ++ '\n' :: "  ...".data)) := by
  simp [result.tapFormat, result.failing, strings.ReplaceNewline, String.data_append]

/-- Lines of a text made of a first line, a second line, a block and a last line. -/
theorem splitLines_frame (st a blk z : List Char) (hst : '\n' ∉ st) (ha : '\n' ∉ a)
    (hz : '\n' ∉ z) :
    splitLines (st ++ '\n' :: (a ++ '\n' :: (blk ++ '\n' :: z))) =
      st :: a :: (splitLines blk ++ [z]) := by
  rw [splitLines_append_newline, splitLines_no_newline st hst, splitLines_append_newline,
    splitLines_no_newline a ha, splitLines_append_newline, splitLines_no_newline z hz]
  rfl

/-! ### `tapFormat` -/

/-- C2, as amended: for every result whose name has no line feed and every sequence number,
the first line of `tapFormat(num)` is `<marker> <num> - <name>`, where the marker is `ok`
when `ExitCode == 0` and `ErrMsg` is empty and `not ok` in every other case. -/
theorem tapFormat_status_line (stringv : yaml.StringEmitter) (re : result) (num : Int)
    (h : '\n' ∉ re.Name.data) :
    firstLine (re.tapFormat stringv num) =
      (if re.ExitCode = 0 ∧ re.ErrMsg = "" then "ok" else "not ok") ++ " " ++
        strconv.Itoa num ++ " - " ++ re.Name := by
  have hmarker : (if re.ExitCode = 0 ∧ re.ErrMsg = "" then "ok" else "not ok")
      = (if re.failing then "not ok" else "ok") := by
    by_cases h1 : re.ExitCode = 0 <;> by_cases h2 : re.ErrMsg = "" <;>
      simp [result.failing, h1, h2]
  rw [hmarker]
  apply String.ext
  have hno : '\n' ∉ ((if re.failing then "not ok" else "ok") ++ " " ++ strconv.Itoa num
      ++ " - " ++ re.Name).data :=
    statusLine_no_newline _ (by split <;> decide) num re.Name h
  show List.takeWhile _ (re.tapFormat stringv num).data = _
  rw [tapFormat_data, takeWhile_until_newline _ _ hno]

/-- C2, evaluated: a failing result with sequence number 7. -/
theorem tapFormat_status_line_witness :
    '\n' ∉ failed.Name.data ∧
    firstLine (failed.tapFormat yaml.stringv 7) =
      (if failed.ExitCode = 0 ∧ failed.ErrMsg = "" then "ok" else "not ok") ++ " " ++
        strconv.Itoa 7 ++ " - " ++ failed.Name :=
  ⟨by decide, tapFormat_status_line yaml.stringv failed 7 (by decide)⟩

/-- C2, as stated, fails for a name that holds a line feed: the first line of the output
stops inside the name. -/
theorem tapFormat_first_line_counterexample :
    firstLine (brokenName.tapFormat yaml.stringv 1) = "ok 1 - a" ∧
    firstLine (brokenName.tapFormat yaml.stringv 1)
      ≠ "ok" ++ " " ++ strconv.Itoa 1 ++ " - " ++ brokenName.Name := by
  decide

/-- C9: for every result whose name has no line feed and every sequence number, the lines of
`tapFormat` are the status line, the line `  ---`, the lines of the block and last the line
`  ...`; the block is not empty and each of its lines is the two-space margin followed by
one line of the trimmed output of `yaml.Marshal`, however many lines a value takes. -/
theorem tapFormat_lines (stringv : yaml.StringEmitter) (re : result) (num : Int)
    (h : '\n' ∉ re.Name.data) :
    ∃ block : List String,
      Lines (re.tapFormat stringv num) =
        ((if re.failing then "not ok" else "ok") ++ " " ++ strconv.Itoa num ++ " - " ++ re.Name)
          :: "  ---" :: (block ++ ["  ..."]) ∧
      (Lines (re.tapFormat stringv num)).getLast? = some "  ..." ∧
      block ≠ [] ∧
      block = (Lines (strings.TrimSpace (re.yamlMarshal stringv))).map (fun l => "  " ++ l) ∧
      ∀ l ∈ block, ∃ rest : String, l = "  " ++ rest := by
  have hno : '\n' ∉ ((if re.failing then "not ok" else "ok") ++ " " ++ strconv.Itoa num
      ++ " - " ++ re.Name).data :=
    statusLine_no_newline _ (by split <;> decide) num re.Name h
  have hlines : Lines (re.tapFormat stringv num) =
      ((if re.failing then "not ok" else "ok") ++ " " ++ strconv.Itoa num ++ " - " ++ re.Name)
        :: "  ---" :: ((Lines (strings.TrimSpace (re.yamlMarshal stringv))).map
          (fun l => "  " ++ l) ++ ["  ..."]) := by
    unfold Lines
    rw [tapFormat_data, splitLines_frame _ _ _ _ hno (by decide) (by decide),
      splitLines_margin _ _ (by decide)]
    simp only [List.map_append, List.map_map, List.map_cons, List.map_nil]
    refine congrArg₂ _ rfl (congrArg₂ _ rfl (congrArg₂ _ ?_ rfl))
    apply List.map_congr_left
    intro l _
    rfl
  refine ⟨_, hlines, ?_, ?_, rfl, ?_⟩
  · rw [hlines]
    exact List.getLast?_concat (_ :: _ :: _)
  · simp [Lines, splitLines_ne_nil]
  · intro l hl
    obtain ⟨r, _, rfl⟩ := List.mem_map.mp hl
    exact ⟨r, rfl⟩

/-- C9, evaluated: a result whose stdout has two lines. -/
theorem tapFormat_lines_witness :
    '\n' ∉ twoLines.Name.data ∧
    ∃ block : List String,
      Lines (twoLines.tapFormat yaml.stringv 1) =
        ((if twoLines.failing then "not ok" else "ok") ++ " " ++
          strconv.Itoa 1 ++ " - " ++ twoLines.Name)
          :: "  ---" :: (block ++ ["  ..."]) ∧
      (Lines (twoLines.tapFormat yaml.stringv 1)).getLast?
        = some "  ..." ∧
      block ≠ [] ∧
      block = (Lines (strings.TrimSpace
        (twoLines.yamlMarshal yaml.stringv))).map
          (fun l => "  " ++ l) ∧
      ∀ l ∈ block, ∃ rest : String, l = "  " ++ rest :=
  ⟨by decide, tapFormat_lines yaml.stringv twoLines 1
    (by decide)⟩

/-! ### `runChecks` -/

/-- The loop of `runChecks` passes to `Write`, in order, one record per received result, the
`k`-th (from 0) numbered `testNum + k`; what `Write` returns as error is not looked at. -/
theorem runChecks_loop_fold {σ : Type} (stringv : yaml.StringEmitter) (W : Writer σ) :
    ∀ (ch : List result) (testNum : Int) (w : σ),
      runChecks.loop stringv W ch testNum w =
        (ch.mapIdx (fun k re => re.tapFormat stringv (testNum + k) ++ "\n")).foldl
          (fun s p => (W.Write s p).1) w := by
  intro ch
  induction ch with
  | nil => intro testNum w; rfl
  | cons re ch ih =>
    intro testNum w
    simp only [runChecks.loop, List.mapIdx_cons, List.foldl_cons, ih, Fprintln]
    have e : (fun (i : Nat) (re : result) => re.tapFormat stringv (testNum + 1 + i) ++ "\n")
        = (fun (i : Nat) (re : result) => re.tapFormat stringv (testNum + ((i + 1 : Nat) : Int))
            ++ "\n") := by
      funext i re
      have : testNum + 1 + (i : Int) = testNum + ((i + 1 : Nat) : Int) := by
        push_cast; ring
      rw [this]
    rw [e]
    simp

/-- All the `Write` calls of `runChecks`, whatever the sink answers. -/
theorem runChecks_fold {σ : Type} (stringv : yaml.StringEmitter) (W : Writer σ)
    (checkers : List checker) (ch : List result) (w : σ) :
    (runChecks stringv W checkers ch w).1 =
      ("TAP version 13\n" :: ("1.." ++ strconv.Itoa checkers.length ++ "\n") ::
        ch.mapIdx (fun k re => re.tapFormat stringv (k + 1) ++ "\n")).foldl
          (fun s p => (W.Write s p).1) w := by
  simp only [runChecks, runChecks_loop_fold, List.foldl_cons, Fprintln, FprintfPlan]
  have e : (fun (k : Nat) (re : result) => re.tapFormat stringv (1 + (k : Int)) ++ "\n")
      = (fun (k : Nat) (re : result) => re.tapFormat stringv ((k : Int) + 1) ++ "\n") := by
    funext k re
    rw [Int.add_comm]
  rw [e]
  rfl

theorem join_foldl (l : List String) (init : String) :
    l.foldl (fun r p => r ++ p) init = init ++ String.join l := by
  unfold String.join
  induction l generalizing init with
  | nil => simp
  | cons a l ih =>
    rw [List.foldl_cons, List.foldl_cons, ih (init ++ a), ih ("" ++ a), String.empty_append,
      String.append_assoc]

theorem bytesBuffer_fold (l : List String) (init : String) :
    l.foldl (fun s p => (bytesBuffer.Write s p).1) init = init ++ String.join l :=
  join_foldl l init

theorem recorder_fold (l init : List String) :
    l.foldl (fun s p => (recorder.Write s p).1) init = init ++ l := by
  induction l generalizing init with
  | nil => simp
  | cons a l ih =>
    rw [List.foldl_cons, ih]
    simp [recorder]

/-- The calls `runChecks` makes on the recording sink. -/
theorem runChecks_recorder (stringv : yaml.StringEmitter) (checkers : List checker)
    (ch : List result) :
    (runChecks stringv recorder checkers ch []).1 =
      "TAP version 13\n" :: ("1.." ++ strconv.Itoa checkers.length ++ "\n") ::
        ch.mapIdx (fun k re => re.tapFormat stringv (k + 1) ++ "\n") := by
  rw [runChecks_fold, recorder_fold]
  rfl

/-- C1: for every list of N checkers and every order `ch` in which their results arrive (any
permutation of the N results), `runChecks` writes `TAP version 13`, then `1..N`, then exactly
N records, the k-th arriving result formatted with sequence number k (so the numbers are
1, 2, ..., N); for N = 0 it writes the two header lines and nothing else. -/
theorem runChecks_report (stringv : yaml.StringEmitter) (checkers : List checker)
    (ch : List result) (hperm : ch.Perm (checkers.map checker.check)) :
    ∃ records : List String,
      (runChecks stringv recorder checkers ch []).1 =
        "TAP version 13\n" :: ("1.." ++ strconv.Itoa checkers.length ++ "\n") :: records ∧
      (runChecks stringv bytesBuffer checkers ch "").1 =
        "TAP version 13\n" ++ ("1.." ++ strconv.Itoa checkers.length ++ "\n") ++
          String.join records ∧
      records.length = checkers.length ∧
      (∀ (k : Nat) (re : result), ch[k]? = some re →
        records[k]? = some (re.tapFormat stringv ((k : Int) + 1) ++ "\n")) ∧
      (checkers = [] →
        (runChecks stringv recorder checkers ch []).1 = ["TAP version 13\n", "1..0\n"] ∧
        (runChecks stringv bytesBuffer checkers ch "").1 = "TAP version 13\n1..0\n") := by
  have hlen : ch.length = checkers.length := by
    simpa using hperm.length_eq
  refine ⟨_, runChecks_recorder stringv checkers ch, ?_, ?_, ?_, ?_⟩
  · rw [runChecks_fold, bytesBuffer_fold, String.empty_append]
    unfold String.join
    rw [List.foldl_cons, List.foldl_cons, join_foldl, String.empty_append]
    rfl
  · simp [hlen]
  · intro k re hk
    simp [List.getElem?_mapIdx, hk]
  · intro hnil
    subst hnil
    have : ch = [] := List.length_eq_zero.mp (by simpa using hlen)
    subst this
    exact ⟨rfl, rfl⟩

/-- C1, evaluated: two checkers whose results arrive in the reverse order. -/
theorem runChecks_report_witness :
    ([failed, passing]).Perm ([checker.mk passing, checker.mk failed].map checker.check) ∧
    ∃ records : List String,
      (runChecks yaml.stringv recorder [checker.mk passing, checker.mk failed]
        [failed, passing] []).1 =
        "TAP version 13\n" ::
          ("1.." ++ strconv.Itoa [checker.mk passing, checker.mk failed].length ++ "\n") ::
          records ∧
      (runChecks yaml.stringv bytesBuffer [checker.mk passing, checker.mk failed]
        [failed, passing] "").1 =
        "TAP version 13\n" ++
          ("1.." ++ strconv.Itoa [checker.mk passing, checker.mk failed].length ++ "\n") ++
          String.join records ∧
      records.length = [checker.mk passing, checker.mk failed].length ∧
      (∀ (k : Nat) (re : result), [failed, passing][k]? = some re →
        records[k]? = some (re.tapFormat yaml.stringv ((k : Int) + 1) ++ "\n")) ∧
      ([checker.mk passing, checker.mk failed] = [] →
        (runChecks yaml.stringv recorder [checker.mk passing, checker.mk failed]
          [failed, passing] []).1 = ["TAP version 13\n", "1..0\n"] ∧
        (runChecks yaml.stringv bytesBuffer [checker.mk passing, checker.mk failed]
          [failed, passing] "").1 = "TAP version 13\n1..0\n") :=
  ⟨List.Perm.swap _ _ _,
    runChecks_report yaml.stringv [checker.mk passing, checker.mk failed] [failed, passing]
      (List.Perm.swap _ _ _)⟩

/-- C4, as amended: `runChecks` does not look at what a write returns: whatever the sink
answers, it passes both header lines and every record, in arrival order, to `Write`, and it
returns nil. -/
theorem runChecks_ignores_write_errors {σ : Type} (stringv : yaml.StringEmitter) (W : Writer σ)
    (checkers : List checker) (ch : List result) (w : σ) :
    (runChecks stringv W checkers ch w).2 = none ∧
    (runChecks stringv W checkers ch w).1 =
      ("TAP version 13\n" :: ("1.." ++ strconv.Itoa checkers.length ++ "\n") ::
        ch.mapIdx (fun k re => re.tapFormat stringv (k + 1) ++ "\n")).foldl
          (fun s p => (W.Write s p).1) w :=
  ⟨rfl, runChecks_fold stringv W checkers ch w⟩

/-- C4, as stated, fails: on a sink whose first write (the header line `TAP version 13`)
fails, `runChecks` still writes the plan line and the record, and returns nil. -/
theorem runChecks_write_failure_counterexample :
    (Fprintln failFirst (0, "") "TAP version 13").2 = some "write failed" ∧
    runChecks yaml.stringv failFirst [checker.mk passing] [passing] (0, "")
      = ((3, "1..1\nok 1 - a\n  ---\n  command: \"true\"\n  ...\n"), none) := by
  decide

/-- C5: for every list of checkers and every arrival order, when the result arriving at
position j is failing and a passing result arrives later, at position k, the record written
for it is the `ok` record with its own arrival number k (counted from 1), its own name and
the block of its own fields; and `runChecks` returns nil on every sink. -/
theorem runChecks_pass_after_fail (stringv : yaml.StringEmitter) (checkers : List checker)
    (ch : List result) (_hperm : ch.Perm (checkers.map checker.check))
    (j k : Nat) (rj rk : result) (_hjk : j < k) (_hj : ch[j]? = some rj)
    (hk : ch[k]? = some rk) (_hfail : rj.failing) (hpass : ¬ rk.failing) :
    (runChecks stringv recorder checkers ch []).1[k + 2]? =
      some ("ok" ++ " " ++ strconv.Itoa ((k : Int) + 1) ++ " - " ++ rk.Name ++ "\n  ---\n" ++
        ("  " ++ strings.ReplaceNewline (strings.TrimSpace (rk.yamlMarshal stringv)) "\n  ") ++
        "\n  ..." ++ "\n") ∧
    ∀ {σ : Type} (W : Writer σ) (w : σ), (runChecks stringv W checkers ch w).2 = none := by
  refine ⟨?_, fun _ _ => rfl⟩
  rw [runChecks_recorder]
  simp only [List.getElem?_cons_succ, List.getElem?_mapIdx, hk, Option.map_some']
  simp [result.tapFormat, hpass]

/-- C5, evaluated: a failing result arrives first, a passing one second. -/
theorem runChecks_pass_after_fail_witness :
    ([failed, passing]).Perm
      ([checker.mk passing,
        checker.mk failed].map checker.check) ∧
    0 < 1 ∧
    [failed, passing][0]?
      = some failed ∧
    [failed, passing][1]?
      = some passing ∧
    failed.failing ∧
    ¬ passing.failing ∧
    (runChecks yaml.stringv recorder
        [checker.mk passing,
          checker.mk failed]
        [failed, passing] []).1[1 + 2]? =
      some ("ok" ++ " " ++ strconv.Itoa (((1 : Nat) : Int) + 1) ++ " - " ++
        passing.Name ++ "\n  ---\n" ++
        ("  " ++ strings.ReplaceNewline (strings.TrimSpace
          (passing.yamlMarshal yaml.stringv)) "\n  ") ++
        "\n  ..." ++ "\n") ∧
    ∀ {σ : Type} (W : Writer σ) (w : σ),
      (runChecks yaml.stringv W
        [checker.mk passing,
          checker.mk failed]
        [failed, passing] w).2 = none :=
  ⟨List.Perm.swap _ _ _, by decide, rfl, rfl, by decide, by decide,
    runChecks_pass_after_fail yaml.stringv
      [checker.mk passing,
        checker.mk failed]
      [failed, passing]
      (List.Perm.swap _ _ _) 0 1
      failed passing
      (by decide) rfl rfl (by decide) (by decide)⟩

/-! ### `check` -/

/-- C3, as amended: in the scenario the command field is the JSON text of the argument
vector, which `yaml.Marshal` writes as a single-quoted scalar; the output is the header, the
status line `ok 1 - hoge` and the block with that command line and `stdout: Hello`. -/
theorem runChecks_hoge :
    (runChecks yaml.stringv bytesBuffer [checker.mk (hoge.check hogeRun)] [hoge.check hogeRun]
      "") =
    ("TAP version 13\n1..1\nok 1 - hoge\n  ---\n" ++
      "  command: '[\"perl\",\"-E\",\"say ''Hello''\"]'\n  stdout: Hello\n  ...\n", none) := by
  decide

/-- C3, as stated, fails: the output of the scenario is not the text with the command line
`command: [perl, -E, say 'Hello']`, because `check` stores the JSON text of the vector. -/
theorem runChecks_hoge_counterexample :
    (hoge.check hogeRun).Cmd = "[\"perl\",\"-E\",\"say 'Hello'\"]" ∧
    (runChecks yaml.stringv bytesBuffer [checker.mk (hoge.check hogeRun)] [hoge.check hogeRun]
      "").1 ≠
    "TAP version 13\n1..1\nok 1 - hoge\n  ---\n  command: [perl, -E, say 'Hello']\n  stdout: Hello\n  ...\n" := by
  decide

theorem TrimSpace_isTrimOf (s : String) : IsTrimOf (strings.TrimSpace s) s := by
  refine ⟨⟨s.data.takeWhile unicode.IsSpace,
    (s.data.dropWhile unicode.IsSpace).rtakeWhile unicode.IsSpace, ?_, ?_, ?_⟩, ?_, ?_⟩
  · have h : (s.data.dropWhile unicode.IsSpace).rdropWhile unicode.IsSpace ++
        (s.data.dropWhile unicode.IsSpace).rtakeWhile unicode.IsSpace
        = s.data.dropWhile unicode.IsSpace := by
      simp only [List.rdropWhile, List.rtakeWhile, ← List.reverse_append,
        List.takeWhile_append_dropWhile, List.reverse_reverse]
    show s.data = _ ++ (s.data.dropWhile unicode.IsSpace).rdropWhile unicode.IsSpace ++ _
    rw [List.append_assoc, h, List.takeWhile_append_dropWhile]
  · intro c hc
    exact List.mem_takeWhile_imp hc
  · intro c hc
    exact List.mem_rtakeWhile_imp hc
  · intro c hc
    obtain ⟨r, hr⟩ := List.rdropWhile_prefix unicode.IsSpace (s.data.dropWhile unicode.IsSpace)
    have hd : (s.data.dropWhile unicode.IsSpace).head? = some c := by
      rw [← hr]
      change ((s.data.dropWhile unicode.IsSpace).rdropWhile unicode.IsSpace).head? = some c at hc
      cases ht : (s.data.dropWhile unicode.IsSpace).rdropWhile unicode.IsSpace with
      | nil => rw [ht] at hc; simp at hc
      | cons a t => rw [ht] at hc; simpa using hc
    have := List.head?_dropWhile_not unicode.IsSpace s.data
    rw [hd] at this
    exact this
  · intro c hc
    change ((s.data.dropWhile unicode.IsSpace).rdropWhile unicode.IsSpace).getLast? = some c at hc
    have hne : (s.data.dropWhile unicode.IsSpace).rdropWhile unicode.IsSpace ≠ [] := by
      intro e; rw [e] at hc; simp at hc
    have := List.rdropWhile_last_not unicode.IsSpace (s.data.dropWhile unicode.IsSpace) hne
    rw [List.getLast?_eq_getLast _ hne] at hc
    have hc' := Option.some.inj hc
    rw [hc'] at this
    simpa using this

theorem TrimSpace_eq_empty_iff (s : String) :
    strings.TrimSpace s = "" ↔ ∀ c ∈ s.data, unicode.IsSpace c = true := by
  constructor
  · intro h
    have hd : (s.data.dropWhile unicode.IsSpace).rdropWhile unicode.IsSpace = [] :=
      congrArg String.data h
    rw [List.rdropWhile_eq_nil_iff] at hd
    have hnil : s.data.dropWhile unicode.IsSpace = [] := by
      cases hl : s.data.dropWhile unicode.IsSpace with
      | nil => rfl
      | cons a t =>
        have ha := hd a (by rw [hl]; exact List.mem_cons_self _ _)
        have := List.head?_dropWhile_not unicode.IsSpace s.data
        rw [hl] at this
        simp at this
        rw [ha] at this
        exact absurd this (by decide)
    exact List.dropWhile_eq_nil_iff.mp hnil
  · intro h
    apply String.ext
    show (s.data.dropWhile unicode.IsSpace).rdropWhile unicode.IsSpace = []
    rw [List.dropWhile_eq_nil_iff.mpr h]
    rfl

/-- C6: for every pair of streams the command returned, the result built by `check` stores
each without its leading and trailing white space and otherwise unchanged; and the mapping
written for the result has no `stdout` (`stderr`) key exactly when that stream is empty or
consists of white space only. -/
theorem check_trims_streams (cpc : checkPluginChecker) (run : RunOutcome) :
    IsTrimOf (cpc.check run).Stdout run.stdout ∧
    IsTrimOf (cpc.check run).Stderr run.stderr ∧
    ("stdout" ∉ (cpc.check run).yamlKeys ↔ ∀ c ∈ run.stdout.data, unicode.IsSpace c = true) ∧
    ("stderr" ∉ (cpc.check run).yamlKeys ↔ ∀ c ∈ run.stderr.data, unicode.IsSpace c = true) := by
  refine ⟨TrimSpace_isTrimOf _, TrimSpace_isTrimOf _, ?_, ?_⟩
  · rw [← TrimSpace_eq_empty_iff]
    simp only [result.yamlKeys, result.yamlFields, checkPluginChecker.check]
    by_cases h : strings.TrimSpace run.stdout = "" <;> simp [h]
  · rw [← TrimSpace_eq_empty_iff]
    simp only [result.yamlKeys, result.yamlFields, checkPluginChecker.check]
    by_cases h : strings.TrimSpace run.stderr = "" <;> simp [h]

/-- C7, as amended: when the literal command string is empty, `check` does not fail and the
command field of its result is `null` for a nil argument vector and `[]` for an empty one. -/
theorem check_absent_command (name memo : String) (run : RunOutcome) :
    (checkPluginChecker.check
      { name := name, cp := { Command := { Cmd := "", Args := none }, Memo := memo } } run).Cmd
      = "null" ∧
    (checkPluginChecker.check
      { name := name, cp := { Command := { Cmd := "", Args := some [] }, Memo := memo } } run).Cmd
      = "[]" :=
  ⟨rfl, rfl⟩

/-- C7, as stated, fails: with an empty command string and a nil argument vector the
command field is the text `null`, neither empty nor `[]`. -/
theorem check_absent_command_counterexample :
    (noCommand.check silentRun).Cmd = "null" ∧
    ¬ ((noCommand.check silentRun).Cmd = "" ∨
      (noCommand.check silentRun).Cmd = "[]") := by
  decide

theorem yamlKeys_eq (re : result) :
    re.yamlKeys =
      (if re.Memo = "" then [] else ["memo"]) ++ ["command"] ++
      (if re.Stdout = "" then [] else ["stdout"]) ++
      (if re.Stderr = "" then [] else ["stderr"]) ++
      (if re.ExitCode = 0 then [] else ["exitCode"]) ++
      (if re.ErrMsg = "" then [] else ["error"]) := by
  simp only [result.yamlKeys, result.yamlFields]
  split_ifs <;> rfl

/-- C8: for every result, the keys of the mapping that `tapFormat` has `yaml.Marshal` write
appear in the relative order memo, command, stdout, stderr, exitCode, error, each at most
once and no other key among them; `name` is never a key; `memo`, `stdout`, `stderr` and
`error` are present exactly when their value is not empty, `exitCode` exactly when it is not
zero (`command` always); and the text written is one entry per key, each starting with the
key and a colon. -/
theorem yamlKeys_order (re : result) :
    re.yamlKeys.Sublist ["memo", "command", "stdout", "stderr", "exitCode", "error"] ∧
    "name" ∉ re.yamlKeys ∧
    ("memo" ∈ re.yamlKeys ↔ re.Memo ≠ "") ∧
    "command" ∈ re.yamlKeys ∧
    ("stdout" ∈ re.yamlKeys ↔ re.Stdout ≠ "") ∧
    ("stderr" ∈ re.yamlKeys ↔ re.Stderr ≠ "") ∧
    ("exitCode" ∈ re.yamlKeys ↔ re.ExitCode ≠ 0) ∧
    ("error" ∈ re.yamlKeys ↔ re.ErrMsg ≠ "") ∧
    ∀ stringv : yaml.StringEmitter,
      re.yamlMarshal stringv = String.join (re.yamlFields.map (yaml.emitEntry stringv)) ∧
      ∀ e ∈ re.yamlFields, ∃ rest : String, yaml.emitEntry stringv e = e.1 ++ ":" ++ rest := by
  refine ⟨?_, ?_, ?_, ?_, ?_, ?_, ?_, ?_, ?_⟩
  · rw [yamlKeys_eq]
    split_ifs <;> decide
  · rw [yamlKeys_eq]
    split_ifs <;> decide
  · rw [yamlKeys_eq]
    split_ifs <;> simp_all
  · rw [yamlKeys_eq]
    split_ifs <;> decide
  · rw [yamlKeys_eq]
    split_ifs <;> simp_all
  · rw [yamlKeys_eq]
    split_ifs <;> simp_all
  · rw [yamlKeys_eq]
    split_ifs <;> simp_all
  · rw [yamlKeys_eq]
    split_ifs <;> simp_all
  · intro stringv
    refine ⟨rfl, ?_⟩
    rintro ⟨key, v⟩ _
    cases v with
    | str s => exact ⟨stringv (key.length + 1) s, rfl⟩
    | int i => exact ⟨" " ++ strconv.Itoa i ++ "\n", by
        simp only [yaml.emitEntry]
        apply String.ext
        simp [String.data_append]⟩

end Mkr
